import Mathlib

/-!
Verification development for the plan-buddy backend (src/server/index.ts and
the buffered variant). The streaming POST /plan pipeline is embedded shallowly:
JavaScript values appearing in request bodies and parsed model output are
modelled by `Json`; the upstream model stream, the JSON.parse runtime and the
Math.random draws are parameters (they are external collaborators, not code of
this repository). All definitions are translated from the TypeScript source.
-/

namespace PlanBuddy

/-- Model of a JavaScript JSON value (the result of JSON.parse, or a request
body field). `none : Option Json` is used where JS would have `undefined`. -/
inductive Json where
  | null : Json
  | bool : Bool → Json
  | num : Int → Json
  | str : String → Json
  | arr : List Json → Json
  | obj : List (String × Json) → Json

/-- JS truthiness of a defined value: null, false, 0 and "" are falsy;
arrays and objects are always truthy. -/
def jsTruthy : Json → Bool
  | Json.null => false
  | Json.bool b => b
  | Json.num n => n != 0
  | Json.str s => s != ""
  | Json.arr _ => true
  | Json.obj _ => true

/-- Truthiness of a possibly-undefined value (`undefined` is falsy). -/
def jsTruthyOpt : Option Json → Bool
  | none => false
  | some j => jsTruthy j

/-- JS property access `o.f`: `none` (undefined) when the value is not an
object or the field is absent; first binding wins. -/
def getField : Json → String → Option Json
  | Json.obj fields, name => lookupField fields name
  | _, _ => none
where
  lookupField : List (String × Json) → String → Option Json
    | [], _ => none
    | (k, v) :: rest, name => if k = name then some v else lookupField rest name

/-! ### The cleaning step of the Response Normalizer

`buffer.replace(/```json/i, "").replace(/```/g, "").trim()` (index.ts:100).
Strings are worked on as `List Char`. -/

/-- The backtick character. -/
def btick : Char := Char.ofNat 96

/-- Does the list start with three backticks (the fence marker)? -/
def startsTriple : List Char → Bool
  | c :: c2 :: c3 :: _ => c = btick && c2 = btick && c3 = btick
  | _ => false

/-- Does the list contain three consecutive backticks anywhere? -/
def hasTriple : List Char → Bool
  | [] => false
  | c :: rest => startsTriple (c :: rest) || hasTriple rest

/-- Does the list start with the 7-character pattern matched by /```json/i
(backtick fence followed by "json" in any case)? -/
def jsonFenceHead : List Char → Bool
  | c :: c2 :: c3 :: j :: s :: o :: n :: _ =>
    c = btick && c2 = btick && c3 = btick &&
    j.toLower = Char.ofNat 106 && s.toLower = Char.ofNat 115 &&
    o.toLower = Char.ofNat 111 && n.toLower = Char.ofNat 110
  | _ => false

/-- `.replace(/```json/i, "")`: remove the first occurrence (anywhere) of the
case-insensitive ```json marker; everything after it is left untouched. -/
def stripJsonFence : List Char → List Char
  | [] => []
  | c :: rest =>
    if jsonFenceHead (c :: rest) then (c :: rest).drop 7
    else c :: stripJsonFence rest

/-- `.replace(/```/g, "")`: remove every (left-to-right, non-overlapping)
occurrence of three backticks, without rescanning replaced text. -/
def stripFences : List Char → List Char
  | c :: c2 :: c3 :: rest =>
    if c = btick ∧ c2 = btick ∧ c3 = btick then stripFences rest
    else c :: stripFences (c2 :: c3 :: rest)
  | c :: rest => c :: stripFences rest
  | [] => []

/-- Whitespace as trimmed by String.prototype.trim (common ASCII subset). -/
def isWS (c : Char) : Bool :=
  c = Char.ofNat 32 || c = Char.ofNat 9 || c = Char.ofNat 10 || c = Char.ofNat 13

/-- Remove leading whitespace. -/
def trimLeft : List Char → List Char
  | [] => []
  | c :: rest => if isWS c then trimLeft rest else c :: rest

/-- Remove trailing whitespace. -/
def trimRight : List Char → List Char
  | [] => []
  | c :: rest =>
    match trimRight rest with
    | [] => if isWS c then [] else [c]
    | r => c :: r

/-- `.trim()`. -/
def trim (l : List Char) : List Char := trimRight (trimLeft l)

/-- The full cleaning step of index.ts:100, on character lists. -/
def clean (l : List Char) : List Char := trim (stripFences (stripJsonFence l))

/-- The cleaning step on strings. -/
def cleanStr (s : String) : String := String.mk (clean s.data)

/-! ### Dates

`computeDueDate` (index.ts:17-23). The current date is modelled as a day
number (days since 1970-01-01); `new Date()` plus `setDate` is day addition,
and `toISOString().split('T')[0]` is Gregorian YYYY-MM-DD formatting. -/

/-- Day number of the defaulted due date: today plus
`horizonDays > 0 ? Math.floor((idx / 6) * horizonDays) : 0` days. -/
def dueDay (idx horizonDays today : Nat) : Nat :=
  today + (if horizonDays > 0 then idx * horizonDays / 6 else 0)

/-- Zero-pad to two digits. -/
def pad2 (n : Nat) : String := if n < 10 then "0" ++ toString n else toString n

/-- Zero-pad to four digits. -/
def pad4 (n : Nat) : String :=
  if n < 10 then "000" ++ toString n
  else if n < 100 then "00" ++ toString n
  else if n < 1000 then "0" ++ toString n
  else toString n

/-- YYYY-MM-DD rendering of an epoch day number (civil-from-days). -/
def isoDate (day : Nat) : String :=
  let z := day + 719468
  let era := z / 146097
  let doe := z % 146097
  let yoe := (doe - doe / 1460 + doe / 36524 - doe / 146096) / 365
  let y := yoe + era * 400
  let doy := doe - (365 * yoe + yoe / 4 - yoe / 100)
  let mp := (5 * doy + 2) / 153
  let d := doy - (153 * mp + 2) / 5 + 1
  let m := if mp < 10 then mp + 3 else mp - 9
  let y2 := if m ≤ 2 then y + 1 else y
  pad4 y2 ++ "-" ++ pad2 m ++ "-" ++ pad2 d

/-- `computeDueDate(idx, horizonDays)` with the current date made explicit. -/
def computeDueDate (idx horizonDays today : Nat) : String :=
  isoDate (dueDay idx horizonDays today)

/-- The priority palette of `randomPriority` (index.ts:25-28); the
Math.random draw is the index argument. -/
def priorityPalette : List String := ["low", "medium", "high"]

/-- `randomPriority()` with the random draw made explicit. -/
def randomPriority (r : Fin 3) : String := priorityPalette.get ⟨r, by cases r with
  | mk v h => simpa [priorityPalette] using h⟩

/-- The emoji palette of `randomEmoji` (index.ts:30-33). -/
def emojiPalette : List String := ["📝","✅","🔹","⚡","📌","🔥","💡","🎯","🚀","⭐"]

/-- `randomEmoji()` with the random draw made explicit. -/
def randomEmoji (r : Fin 10) : String := emojiPalette.get ⟨r, by cases r with
  | mk v h => simpa [emojiPalette] using h⟩

/-! ### Task normalization (index.ts:102-119) -/

/-- A task as built by the `tasks.map` defaulting in POST /plan. `title` is
`Option Json` because `task.title` is passed through verbatim and is
`undefined` when the raw task has no title. -/
structure NTask where
  id : Json
  title : Option Json
  dueDate : Json
  priority : Json
  notes : Json
  emoji : Json

/-- `value || fallback` on a possibly-undefined JS value. -/
def jsOr (v : Option Json) (fallback : Json) : Json :=
  match v with
  | some j => if jsTruthy j then j else fallback
  | none => fallback

/-- JS String.prototype.toLowerCase, character by character. -/
def jsToLower (s : String) : String := String.mk (s.data.map Char.toLower)

/-- `task.priority?.toLowerCase() || randomPriority()` on the field value:
optional chaining skips null/undefined; calling toLowerCase on a non-string
throws a TypeError (which the handler's inner catch turns into the generic
parse failure); a lower-cased empty string is falsy, so defaulted. -/
def normPriorityVal : Option Json → Fin 3 → Except String Json
  | none, pr => Except.ok (Json.str (randomPriority pr))
  | some Json.null, pr => Except.ok (Json.str (randomPriority pr))
  | some (Json.str s), pr =>
    if jsToLower s = "" then Except.ok (Json.str (randomPriority pr))
    else Except.ok (Json.str (jsToLower s))
  | some _, _ => Except.error "task.priority.toLowerCase is not a function"

/-- The priority defaulting of index.ts:112. -/
def normPriority (t : Json) (pr : Fin 3) : Except String Json :=
  normPriorityVal (getField t "priority") pr

/-- One step of the `tasks.map((task, idx) => ...)` defaulting
(index.ts:108-115). -/
def normTask (hd today : Nat) (pr : Fin 3) (em : Fin 10) (idx : Nat) (t : Json) :
    Except String NTask := do
  let p ← normPriority t pr
  Except.ok
    { id := jsOr (getField t "id") (Json.str ("task-" ++ toString idx))
      title := getField t "title"
      dueDate := jsOr (getField t "dueDate") (Json.str (computeDueDate idx hd today))
      priority := p
      notes := jsOr (getField t "notes") (Json.str "")
      emoji := jsOr (getField t "emoji") (Json.str (randomEmoji em)) }

/-- `tasks = data.tasks || []` followed by `tasks.map`: an absent or falsy
`tasks` field yields the empty list; a truthy non-array makes `.map` throw. -/
def getTasksField (data : Json) : Except String (List Json) :=
  match getField data "tasks" with
  | none => Except.ok []
  | some j =>
    if jsTruthy j then
      match j with
      | Json.arr xs => Except.ok xs
      | _ => Except.error "tasks.map is not a function"
    else Except.ok []

/-- The indexed map over the raw task list. -/
def normAll (hd today : Nat) (prC emC : Nat → Nat) (idx : Nat) :
    List Json → Except String (List NTask)
  | [] => Except.ok []
  | t :: rest => do
    let nt ← normTask hd today (Fin.ofNat (prC idx)) (Fin.ofNat (emC idx)) idx t
    let nr ← normAll hd today prC emC (idx + 1) rest
    Except.ok (nt :: nr)

/-- Normalization of an already-parsed value: field extraction plus the
defaulting map (index.ts:105-115). -/
def normalizeParsed (hd today : Nat) (prC emC : Nat → Nat) (data : Json) :
    Except String (List NTask) := do
  let ts ← getTasksField data
  normAll hd today prC emC 0 ts

/-- The whole inner try of index.ts:102-119: clean, JSON.parse, extract and
map; every failure inside it is rethrown as "AI returned invalid JSON".
`parse` is the JSON.parse runtime (external). -/
def normalizeBuffer (parse : String → Option Json) (hd today : Nat)
    (prC emC : Nat → Nat) (buffer : String) : Except String (List NTask) :=
  match parse (cleanStr buffer) with
  | none => Except.error "AI returned invalid JSON"
  | some data =>
    match normalizeParsed hd today prC emC data with
    | Except.ok tasks => Except.ok tasks
    | Except.error _ => Except.error "AI returned invalid JSON"

/-! ### Stream consumption and events (index.ts:83-129) -/

/-- An SSE frame written by the handler (the `data: ...` JSON envelope). -/
inductive Event where
  | delta : String → Event
  | done : List NTask → Event
  | error : String → Event

/-- Is the event terminal (`done` or `error`)? -/
def isTerminal : Event → Bool
  | Event.delta _ => false
  | Event.done _ => true
  | Event.error _ => true

/-- Result of the `for await` chunk loop: the accumulated buffer and the
delta events written, in order. -/
structure ConsumeResult where
  buffer : String
  events : List Event

/-- The chunk loop (index.ts:86-96): an empty fragment is skipped; a
non-empty one is appended to the buffer and immediately written out. -/
def consumeLoop : List String → String → ConsumeResult
  | [], buf => ⟨buf, []⟩
  | f :: rest, buf =>
    if f = "" then consumeLoop rest buf
    else
      let r := consumeLoop rest (buf ++ f)
      ⟨r.buffer, Event.delta f :: r.events⟩

/-- Concatenation of all fragments. -/
def joinFrags : List String → String
  | [] => ""
  | f :: rest => f ++ joinFrags rest

/-- An observable action of the loop: consuming a fragment from the upstream
stream, or emitting a delta to the client. -/
inductive Action where
  | consume : String → Action
  | emit : String → Action

/-- The interleaved action trace of the chunk loop: each fragment is
consumed, then (if non-empty) emitted, before the next one is consumed. -/
def consumeTrace : List String → List Action
  | [] => []
  | f :: rest =>
    Action.consume f :: (if f = "" then consumeTrace rest
                         else Action.emit f :: consumeTrace rest)

/-! ### The POST /plan handler (index.ts:36-130) -/

/-- `horizon === "today" ? 0 : 7` (index.ts:55). -/
def horizonDays : Json → Nat
  | Json.str s => if s = "today" then 0 else 7
  | _ => 7

/-- `horizon === "today" ? "end of today" : "end of this week"` (index.ts:56). -/
def horizonText : Json → String
  | Json.str s => if s = "today" then "end of today" else "end of this week"
  | _ => "end of this week"

/-- JS string interpolation of a value in a template literal. -/
def jsDisplay : Json → String
  | Json.null => "null"
  | Json.bool b => if b then "true" else "false"
  | Json.num n => toString n
  | Json.str s => s
  | Json.arr xs => jsDisplayList xs
  | Json.obj _ => "[object Object]"
where
  jsDisplayList : List Json → String
    | [] => ""
    | [x] => jsDisplay x
    | x :: y :: rest => jsDisplay x ++ "," ++ jsDisplayList (y :: rest)

/-- The prompt template of index.ts:58-76. -/
def buildPrompt (goal : Json) (ht : String) : String :=
  "\nCreate a concise, actionable task plan for the goal: \"" ++ jsDisplay goal ++
  "\".\nSpread tasks between now and the " ++ ht ++
  ".\nKeep 4-10 tasks max. Include realistic due dates.\n\nReturn ONLY valid JSON in this exact format:\n\x7b\n  \"tasks\": [\n    \x7b\n      \"id\": \"task-1\",\n      \"title\": \"Task title here\",\n      \"dueDate\": \"YYYY-MM-DD\",\n      \"priority\": \"low|medium|high\",\n      \"notes\": \"Optional notes\",\n      \"emoji\": \"📝\"\n    \x7d\n  ]\n\x7d\n"

/-- The request body fields (each possibly absent). -/
structure PlanReq where
  goal : Option Json
  horizon : Option Json

/-- Outcome of driving the upstream generation stream: either it completes
normally after yielding the given fragments, or it raises mid-flight after
yielding some fragments. -/
inductive StreamOutcome where
  | completed : List String → StreamOutcome
  | failed : List String → String → StreamOutcome

/-- What the handler sends back: either a 400 JSON body (before streaming
starts) or an SSE event stream. -/
inductive PlanResponse where
  | badRequest : String → PlanResponse
  | sse : List Event → PlanResponse

/-- The handler's observable result: the response, how many times the
upstream model was invoked, and the prompt sent to it (if any). -/
structure HandlerResult where
  resp : PlanResponse
  modelCalls : Nat
  prompt : Option String

/-- The POST /plan handler. `outcome` is the behavior of the upstream model
stream and `parse` the JSON.parse runtime; `today` is the current date as an
epoch day; `prC`/`emC` are the per-index Math.random draws. -/
def planHandler (req : PlanReq) (outcome : StreamOutcome)
    (parse : String → Option Json) (today : Nat) (prC emC : Nat → Nat) :
    HandlerResult :=
  match req.goal, req.horizon with
  | some g, some h =>
    if jsTruthy g && jsTruthy h then
      let hd := horizonDays h
      let prompt := buildPrompt g (horizonText h)
      let events : List Event :=
        match outcome with
        | StreamOutcome.failed frags msg =>
          (consumeLoop frags "").events ++ [Event.error msg]
        | StreamOutcome.completed frags =>
          let r := consumeLoop frags ""
          match normalizeBuffer parse hd today prC emC r.buffer with
          | Except.ok tasks => r.events ++ [Event.done tasks]
          | Except.error m => r.events ++ [Event.error m]
      ⟨PlanResponse.sse events, 1, some prompt⟩
    else ⟨PlanResponse.badRequest "goal & horizon required", 0, none⟩
  | _, _ => ⟨PlanResponse.badRequest "goal & horizon required", 0, none⟩

/-- The SSE events of a handler result (empty for a 400 response). -/
def planEvents (r : HandlerResult) : List Event :=
  match r.resp with
  | PlanResponse.badRequest _ => []
  | PlanResponse.sse evts => evts

/-! ### Legacy polling endpoints and the status store
(index.ts:135-155, 237-269) -/

/-- A status-store entry. -/
inductive PlanStatus where
  | pending : PlanStatus
  | completed : List NTask → PlanStatus
  | error : String → PlanStatus

/-- `(data.tasks ?? []).map`: nullish coalescing, so only undefined and null
become the empty list; any other non-array makes `.map` throw. -/
def getTasksFieldNullish (data : Json) : Except String (List Json) :=
  match getField data "tasks" with
  | none => Except.ok []
  | some Json.null => Except.ok []
  | some (Json.arr xs) => Except.ok xs
  | some _ => Except.error "data.tasks.map is not a function"

/-- One task of the legacy background map (index.ts:255-262): everything but
the title is defaulted unconditionally. -/
def bgTask (hd today : Nat) (pr : Fin 3) (em : Fin 10) (idx : Nat) (t : Json) :
    NTask :=
  { id := Json.str ("task-" ++ toString idx)
    title := getField t "title"
    dueDate := Json.str (computeDueDate idx hd today)
    priority := Json.str (randomPriority pr)
    notes := Json.str ""
    emoji := Json.str (randomEmoji em) }

/-- The legacy background map over the raw task list. -/
def bgMap (hd today : Nat) (prC emC : Nat → Nat) (idx : Nat) :
    List Json → List NTask
  | [] => []
  | t :: rest =>
    bgTask hd today (Fin.ofNat (prC idx)) (Fin.ofNat (emC idx)) idx t ::
      bgMap hd today prC emC (idx + 1) rest

/-- Stand-in for the message of the SyntaxError thrown by JSON.parse (the
exact text is produced by the JS runtime, not by this repository). -/
def jsonParseErrorMsg : String := "Unexpected token in JSON"

/-- The normalization inside generatePlanBackground (index.ts:252-262). -/
def bgNormalize (parse : String → Option Json) (hd today : Nat)
    (prC emC : Nat → Nat) (text : String) : Except String (List NTask) :=
  match parse (cleanStr text) with
  | none => Except.error jsonParseErrorMsg
  | some data =>
    match getTasksFieldNullish data with
    | Except.error m => Except.error m
    | Except.ok ts => Except.ok (bgMap hd today prC emC 0 ts)

/-- The status written by generatePlanBackground (index.ts:237-269): the
model call either returns text or throws; every failure is caught and stored
as an error status, success as a completed status carrying the plan. -/
def bgStatusOf (parse : String → Option Json) (hd today : Nat)
    (prC emC : Nat → Nat) (modelResult : Except String String) : PlanStatus :=
  match modelResult with
  | Except.error m => PlanStatus.error m
  | Except.ok text =>
    match bgNormalize parse hd today prC emC text with
    | Except.ok tasks => PlanStatus.completed tasks
    | Except.error m => PlanStatus.error m

/-- The mutable server state: the plansInProgress map (index.ts:14) plus
which ids have a background generation still running. -/
structure SysState where
  store : String → Option PlanStatus
  bgPending : String → Bool

/-- The empty initial state. -/
def initState : SysState := ⟨fun _ => none, fun _ => false⟩

/-- Effect of POST /plan/start on the state (index.ts:140-143): the entry is
written in pending state synchronously and a background generation starts. -/
def startState (s : SysState) (id : String) : SysState :=
  ⟨fun x => if x = id then some PlanStatus.pending else s.store x,
   fun x => if x = id then true else s.bgPending x⟩

/-- Effect of a background generation finishing for id. -/
def finishState (parse : String → Option Json) (today : Nat)
    (prC emC : Nat → Nat) (s : SysState) (id : String) (hd : Nat)
    (modelResult : Except String String) : SysState :=
  ⟨fun x => if x = id then some (bgStatusOf parse hd today prC emC modelResult)
            else s.store x,
   fun x => if x = id then false else s.bgPending x⟩

/-- Transitions of the status store: a request starts (with a fresh uuid) or
a running background generation finishes. -/
inductive Step (parse : String → Option Json) (today : Nat)
    (prC emC : Nat → Nat) : SysState → SysState → Prop where
  | start (s : SysState) (id : String) (fresh : s.store id = none) :
      Step parse today prC emC s (startState s id)
  | finish (s : SysState) (id : String) (hbg : s.bgPending id = true)
      (hd : Nat) (modelResult : Except String String) :
      Step parse today prC emC s
        (finishState parse today prC emC s id hd modelResult)

/-- States reachable from the empty server state. -/
inductive Reach (parse : String → Option Json) (today : Nat)
    (prC emC : Nat → Nat) : SysState → Prop where
  | init : Reach parse today prC emC initState
  | step (s s' : SysState) (hs : Reach parse today prC emC s)
      (hstep : Step parse today prC emC s s') : Reach parse today prC emC s'

/-- Response of GET /plan/status/:planId. -/
inductive StatusResponse where
  | ok : PlanStatus → StatusResponse
  | notFound : String → StatusResponse

/-- The GET /plan/status/:planId handler (index.ts:148-155). -/
def statusHandler (store : String → Option PlanStatus) (planId : String) :
    StatusResponse :=
  match store planId with
  | none => StatusResponse.notFound "Invalid planId"
  | some st => StatusResponse.ok st

/-- A concrete instance of the external JSON.parse oracle, used to evaluate
the pipeline at concrete inputs: it parses every input to one fixed object
holding a single task that has no title. -/
def sampleParse : String → Option Json :=
  fun _ => some (Json.obj [("tasks", Json.arr [Json.obj []])])

/-! ## Theorems -/

theorem string_append_empty (s : String) : s ++ "" = s := by
  apply String.ext
  simp [String.data_append]

theorem string_empty_append (s : String) : "" ++ s = s := by
  apply String.ext
  simp [String.data_append]

theorem string_append_assoc (a b c : String) : a ++ b ++ c = a ++ (b ++ c) := by
  apply String.ext
  simp [String.data_append]

theorem consumeLoop_buffer (frags : List String) :
    ∀ buf, (consumeLoop frags buf).buffer = buf ++ joinFrags frags := by
  induction frags with
  | nil => intro buf; simp [consumeLoop, joinFrags, string_append_empty]
  | cons f rest ih =>
    intro buf
    by_cases hf : f = ""
    · subst hf
      simp [consumeLoop, joinFrags, ih, string_empty_append]
    · simp [consumeLoop, hf, joinFrags, ih, string_append_assoc]

theorem consumeLoop_events (frags : List String) :
    ∀ buf, (consumeLoop frags buf).events =
      (frags.filter (fun f => f != "")).map Event.delta := by
  induction frags with
  | nil => intro buf; simp [consumeLoop]
  | cons f rest ih =>
    intro buf
    by_cases hf : f = ""
    · subst hf
      simp [consumeLoop, ih]
    · simp [consumeLoop, hf, ih]

theorem consumeTrace_flat (frags : List String) :
    consumeTrace frags = frags.flatMap
      (fun f => Action.consume f :: if f = "" then [] else [Action.emit f]) := by
  induction frags with
  | nil => rfl
  | cons f rest ih =>
    by_cases hf : f = ""
    · subst hf; simp [consumeTrace, ih]
    · simp [consumeTrace, hf, ih]

/-- C7: the Stream Consumer emits one delta per non-empty fragment, verbatim
and in order; in the interleaved trace each fragment's emission happens right
after its consumption and before the next fragment is consumed; and the
buffer handed to the Response Normalizer equals the concatenation of all
fragments. -/
theorem c7_stream_consumer (frags : List String) :
    (consumeLoop frags "").events =
      (frags.filter (fun f => f != "")).map Event.delta
    ∧ (consumeLoop frags "").buffer = joinFrags frags
    ∧ consumeTrace frags = frags.flatMap
        (fun f => Action.consume f :: if f = "" then [] else [Action.emit f]) :=
  ⟨consumeLoop_events frags "",
   by rw [consumeLoop_buffer frags "", string_empty_append],
   consumeTrace_flat frags⟩

/-- C3 counterexample: at task index 7 (which occurs in any plan of eight or
more tasks) the defaulted week due date is today + 8, outside a 7-day window
from the current date; the full normalizer realizes this on an 8-task plan. -/
theorem c3_counterexample :
    dueDay 7 7 0 = 0 + 8
    ∧ ¬ dueDay 7 7 0 ≤ 0 + 7
    ∧ Except.map (fun ts => (ts.map NTask.dueDate).getLast?)
        (normalizeParsed 7 0 (fun _ => 0) (fun _ => 0)
          (Json.obj [("tasks", Json.arr (List.replicate 8 (Json.obj [])))]))
        = Except.ok (some (Json.str "1970-01-09")) := by
  refine ⟨by decide, by decide, ?_⟩
  rfl

/-- C3 amended: the defaulted due date is today + floor((idx / 6) *
horizonDays) days; for horizon `today` (horizonDays = 0) it equals the
current date; for horizon `week` (horizonDays = 7) it is non-decreasing in
the task index, but it stays within a 7-day window from the current date
only for indices up to 6 — from index 7 on it falls outside the window. -/
theorem c3_amended (idx idx2 today : Nat) :
    dueDay idx 7 today = today + idx * 7 / 6
    ∧ dueDay idx 0 today = today
    ∧ (idx ≤ idx2 → dueDay idx 7 today ≤ dueDay idx2 7 today)
    ∧ (idx ≤ 6 → dueDay idx 7 today ≤ today + 7) := by
  refine ⟨by simp [dueDay], by simp [dueDay], ?_, ?_⟩
  · intro h
    simp only [dueDay, if_pos (by decide : (0:Nat) < 7)]
    exact Nat.add_le_add_left (Nat.div_le_div_right (Nat.mul_le_mul_right 7 h)) today
  · intro h
    simp only [dueDay, if_pos (by decide : (0:Nat) < 7)]
    have h42 : idx * 7 ≤ 42 := le_trans (Nat.mul_le_mul_right 7 h) (by decide)
    have : idx * 7 / 6 ≤ 42 / 6 := Nat.div_le_div_right h42
    omega

theorem c3_witness :
    dueDay 3 7 5 ≤ dueDay 5 7 5 ∧ dueDay 6 7 5 ≤ 5 + 7 :=
  ⟨(c3_amended 3 5 5).2.2.1 (by decide), (c3_amended 6 0 5).2.2.2 (by decide)⟩

/-- C4: a request with a missing (or falsy) goal or horizon is answered with
400 and the body error "goal & horizon required", and the upstream model is
never invoked (zero model calls, no prompt built). -/
theorem c4_validation (req : PlanReq) (outcome : StreamOutcome)
    (parse : String → Option Json) (today : Nat) (prC emC : Nat → Nat)
    (h : jsTruthyOpt req.goal = false ∨ jsTruthyOpt req.horizon = false) :
    planHandler req outcome parse today prC emC =
      ⟨PlanResponse.badRequest "goal & horizon required", 0, none⟩ := by
  rcases req with ⟨g0, h0⟩
  cases g0 with
  | none => rfl
  | some g =>
    cases h0 with
    | none => rfl
    | some hz =>
      simp only [jsTruthyOpt] at h
      rcases h with h | h <;> simp [planHandler, h]

theorem c4_witness :
    (jsTruthyOpt (some (Json.str "")) = false ∨
      jsTruthyOpt (some (Json.str "week")) = false)
    ∧ planHandler ⟨some (Json.str ""), some (Json.str "week")⟩
        (StreamOutcome.completed []) sampleParse 0 (fun _ => 0) (fun _ => 0) =
        ⟨PlanResponse.badRequest "goal & horizon required", 0, none⟩ :=
  ⟨Or.inl (by decide),
   c4_validation _ _ _ _ _ _ (Or.inl (by decide))⟩

/-- C5: if the parsed model output has no `tasks` field, the streaming
normalizer produces the empty task list rather than an error. -/
theorem c5_missing_tasks (hd today : Nat) (prC emC : Nat → Nat) (data : Json)
    (h : getField data "tasks" = none) :
    normalizeParsed hd today prC emC data = Except.ok [] := by
  simp [normalizeParsed, getTasksField, h, normAll, Bind.bind, Except.bind]

theorem c5_witness :
    normalizeParsed 7 0 (fun _ => 0) (fun _ => 0)
      (Json.obj [("items", Json.arr [])]) = Except.ok [] :=
  c5_missing_tasks 7 0 (fun _ => 0) (fun _ => 0) _ rfl

/-- C10: the horizon is never validated against the enum: any non-empty
horizon string other than "today" passes validation and makes the streaming
/plan handler behave exactly as horizon "week" (horizonDays 7, prompt text
"end of this week", identical observable result). -/
theorem c10_horizon_unvalidated (h : String) (hne : h ≠ "") (hnt : h ≠ "today") :
    horizonDays (Json.str h) = 7
    ∧ horizonText (Json.str h) = "end of this week"
    ∧ (∀ goal outcome parse today prC emC,
        planHandler ⟨goal, some (Json.str h)⟩ outcome parse today prC emC =
        planHandler ⟨goal, some (Json.str "week")⟩ outcome parse today prC emC)
    ∧ (∀ g outcome parse today prC emC, jsTruthy g = true →
        (planHandler ⟨some g, some (Json.str h)⟩
          outcome parse today prC emC).modelCalls = 1) := by
  refine ⟨by simp [horizonDays, hnt], by simp [horizonText, hnt], ?_, ?_⟩
  · intro goal outcome parse today prC emC
    cases goal with
    | none => rfl
    | some g =>
      simp [planHandler, jsTruthy, hne, horizonDays, horizonText, hnt]
  · intro g outcome parse today prC emC hg
    have hh : jsTruthy (Json.str h) = true := by simp [jsTruthy, hne]
    simp [planHandler, hg, hh]

theorem c10_witness :
    horizonDays (Json.str "month") = 7
    ∧ horizonText (Json.str "month") = "end of this week"
    ∧ (∀ goal outcome parse today prC emC,
        planHandler ⟨goal, some (Json.str "month")⟩ outcome parse today prC emC =
        planHandler ⟨goal, some (Json.str "week")⟩ outcome parse today prC emC)
    ∧ (∀ g outcome parse today prC emC, jsTruthy g = true →
        (planHandler ⟨some g, some (Json.str "month")⟩
          outcome parse today prC emC).modelCalls = 1) :=
  c10_horizon_unvalidated "month" (by decide) (by decide)

theorem randomPriority_mem (pr : Fin 3) : randomPriority pr ∈ priorityPalette := by
  unfold randomPriority
  exact List.get_mem _ _ _

/-- C8 counterexample: a model-provided priority "URGENT" is lower-cased to
"urgent" and kept, so the normalized priority field is not an element of the
enum low/medium/high — the code never checks membership. -/
theorem c8_counterexample :
    Except.map NTask.priority
      (normTask 7 0 0 0 0 (Json.obj [("priority", Json.str "URGENT")]))
      = Except.ok (Json.str "urgent")
    ∧ ¬ (Json.str "urgent" = Json.str "low" ∨
         Json.str "urgent" = Json.str "medium" ∨
         Json.str "urgent" = Json.str "high") := by
  constructor
  · rfl
  · intro hmem
    rcases hmem with h | h | h <;> simp at h

/-- C8 amended: the normalized priority is the lower-cased model-provided
string whenever one was provided and lower-casing it gives a non-empty
string (it may lie outside the enum); otherwise it is the palette element
selected by the Math.random draw, hence inside the enum. -/
theorem c8_amended (hd today : Nat) (pr : Fin 3) (em : Fin 10) (idx : Nat)
    (t : Json) (res : NTask)
    (h : normTask hd today pr em idx t = Except.ok res) :
    (∃ s, getField t "priority" = some (Json.str s) ∧ jsToLower s ≠ ""
      ∧ res.priority = Json.str (jsToLower s))
    ∨ (∃ q, q ∈ priorityPalette ∧ res.priority = Json.str q) := by
  unfold normTask at h
  cases hp : normPriority t pr with
  | error e => rw [hp] at h; simp [Bind.bind, Except.bind] at h
  | ok p =>
    rw [hp] at h
    simp only [Bind.bind, Except.bind, Except.ok.injEq] at h
    have hres : res.priority = p := by rw [← h]
    unfold normPriority at hp
    cases hg : getField t "priority" with
    | none =>
      rw [hg] at hp
      simp only [normPriorityVal, Except.ok.injEq] at hp
      exact Or.inr ⟨randomPriority pr, randomPriority_mem pr, by rw [hres, ← hp]⟩
    | some j =>
      rw [hg] at hp
      cases j with
      | null =>
        simp only [normPriorityVal, Except.ok.injEq] at hp
        exact Or.inr ⟨randomPriority pr, randomPriority_mem pr, by rw [hres, ← hp]⟩
      | str s =>
        simp only [normPriorityVal] at hp
        by_cases hs : jsToLower s = ""
        · rw [if_pos hs] at hp
          simp only [Except.ok.injEq] at hp
          exact Or.inr ⟨randomPriority pr, randomPriority_mem pr, by rw [hres, ← hp]⟩
        · rw [if_neg hs] at hp
          simp only [Except.ok.injEq] at hp
          exact Or.inl ⟨s, rfl, hs, by rw [hres, ← hp]⟩
      | bool b => simp [normPriorityVal] at hp
      | num n => simp [normPriorityVal] at hp
      | arr xs => simp [normPriorityVal] at hp
      | obj fs => simp [normPriorityVal] at hp

theorem c8_witness :
    (∃ s, getField (Json.obj []) "priority" = some (Json.str s)
      ∧ jsToLower s ≠ ""
      ∧ (⟨Json.str "task-0", none, Json.str "1970-01-01", Json.str "low",
          Json.str "", Json.str "📝"⟩ : NTask).priority = Json.str (jsToLower s))
    ∨ (∃ q, q ∈ priorityPalette ∧
        (⟨Json.str "task-0", none, Json.str "1970-01-01", Json.str "low",
          Json.str "", Json.str "📝"⟩ : NTask).priority = Json.str q) :=
  c8_amended 7 0 0 0 0 (Json.obj []) _ rfl

theorem jsOr_ne_null (v : Option Json) (s : String) :
    jsOr v (Json.str s) ≠ Json.null := by
  intro hcon
  cases v with
  | none => exact Json.noConfusion hcon
  | some j =>
    simp only [jsOr] at hcon
    split at hcon
    · next hj => subst hcon; simp [jsTruthy] at hj
    · exact Json.noConfusion hcon

theorem normPriority_ne_null (t : Json) (pr : Fin 3) (p : Json)
    (h : normPriority t pr = Except.ok p) : p ≠ Json.null := by
  unfold normPriority at h
  cases hg : getField t "priority" with
  | none => rw [hg] at h; simp only [normPriorityVal, Except.ok.injEq] at h; simp [← h]
  | some j =>
    rw [hg] at h
    cases j with
    | null => simp only [normPriorityVal, Except.ok.injEq] at h; simp [← h]
    | str s =>
      simp only [normPriorityVal] at h
      by_cases hs : jsToLower s = "" <;>
        simp only [hs, if_pos, if_neg, if_true, if_false, Except.ok.injEq,
          reduceIte] at h <;> simp [← h]
    | bool b => simp [normPriorityVal] at h
    | num n => simp [normPriorityVal] at h
    | arr xs => simp [normPriorityVal] at h
    | obj fs => simp [normPriorityVal] at h

/-- C1 counterexample: a raw task without a title normalizes successfully to
a task whose title is undefined, and the pipeline emits it in a `done`
payload — so not all six fields are populated. -/
theorem c1_counterexample :
    Except.map NTask.title (normTask 7 0 0 0 0 (Json.obj [])) = Except.ok none
    ∧ planEvents (planHandler ⟨some (Json.str "Launch a blog"),
        some (Json.str "today")⟩ (StreamOutcome.completed ["x"]) sampleParse 0
        (fun _ => 0) (fun _ => 0))
      = [Event.delta "x",
         Event.done [⟨Json.str "task-0", none, Json.str "1970-01-01",
           Json.str "low", Json.str "", Json.str "📝"⟩]] := by
  exact ⟨rfl, rfl⟩

/-- C1 amended: after normalization the five fields id, dueDate, priority,
notes and emoji are always populated and non-null, whatever the raw model
output supplied; the title is passed through verbatim, so it is undefined
exactly when the raw task object lacks a title. -/
theorem c1_amended (hd today : Nat) (pr : Fin 3) (em : Fin 10) (idx : Nat)
    (t : Json) (res : NTask)
    (h : normTask hd today pr em idx t = Except.ok res) :
    res.id ≠ Json.null ∧ res.dueDate ≠ Json.null ∧ res.priority ≠ Json.null
    ∧ res.notes ≠ Json.null ∧ res.emoji ≠ Json.null
    ∧ res.title = getField t "title" := by
  unfold normTask at h
  cases hp : normPriority t pr with
  | error e => rw [hp] at h; simp [Bind.bind, Except.bind] at h
  | ok p =>
    rw [hp] at h
    simp only [Bind.bind, Except.bind, Except.ok.injEq] at h
    rw [← h]
    exact ⟨jsOr_ne_null _ _, jsOr_ne_null _ _, normPriority_ne_null t pr p hp,
      jsOr_ne_null _ _, jsOr_ne_null _ _, rfl⟩

theorem c1_witness :
    (⟨Json.str "task-0", some (Json.str "Pick a platform"),
      Json.str "1970-01-01", Json.str "low", Json.str "",
      Json.str "📝"⟩ : NTask).id ≠ Json.null
    ∧ (⟨Json.str "task-0", some (Json.str "Pick a platform"),
        Json.str "1970-01-01", Json.str "low", Json.str "",
        Json.str "📝"⟩ : NTask).dueDate ≠ Json.null
    ∧ (⟨Json.str "task-0", some (Json.str "Pick a platform"),
        Json.str "1970-01-01", Json.str "low", Json.str "",
        Json.str "📝"⟩ : NTask).priority ≠ Json.null
    ∧ (⟨Json.str "task-0", some (Json.str "Pick a platform"),
        Json.str "1970-01-01", Json.str "low", Json.str "",
        Json.str "📝"⟩ : NTask).notes ≠ Json.null
    ∧ (⟨Json.str "task-0", some (Json.str "Pick a platform"),
        Json.str "1970-01-01", Json.str "low", Json.str "",
        Json.str "📝"⟩ : NTask).emoji ≠ Json.null
    ∧ (⟨Json.str "task-0", some (Json.str "Pick a platform"),
        Json.str "1970-01-01", Json.str "low", Json.str "",
        Json.str "📝"⟩ : NTask).title =
      getField (Json.obj [("title", Json.str "Pick a platform")]) "title" :=
  c1_amended 7 0 0 0 0 (Json.obj [("title", Json.str "Pick a platform")]) _ rfl

theorem consumeLoop_events_not_terminal (frags : List String) (buf : String)
    (e : Event) (he : e ∈ (consumeLoop frags buf).events) :
    isTerminal e = false := by
  rw [consumeLoop_events frags buf] at he
  obtain ⟨f, _, rfl⟩ := List.mem_map.mp he
  rfl

/-- C2: for every valid (goal, horizon) request and every upstream outcome
(normal completion, mid-flight failure, or a buffer the parse rejects), the
emitted event stream is some delta events followed by exactly one terminal
event (`done` or `error`), which is the last event; nothing follows it. -/
theorem c2_terminal_event (req : PlanReq) (outcome : StreamOutcome)
    (parse : String → Option Json) (today : Nat) (prC emC : Nat → Nat)
    (g hz : Json) (hg : req.goal = some g) (hh : req.horizon = some hz)
    (htg : jsTruthy g = true) (hth : jsTruthy hz = true) :
    ∃ ds t, planEvents (planHandler req outcome parse today prC emC) = ds ++ [t]
      ∧ (∀ e ∈ ds, isTerminal e = false) ∧ isTerminal t = true := by
  rcases req with ⟨g0, h0⟩
  simp only at hg hh
  subst hg hh
  cases outcome with
  | failed frags msg =>
    simp only [planHandler, htg, hth, Bool.and_self, if_true, planEvents]
    exact ⟨(consumeLoop frags "").events, Event.error msg, rfl,
      fun e he => consumeLoop_events_not_terminal frags "" e he, rfl⟩
  | completed frags =>
    simp only [planHandler, htg, hth, Bool.and_self, if_true, planEvents]
    cases hn : normalizeBuffer parse (horizonDays hz) today prC emC
        (consumeLoop frags "").buffer with
    | ok tasks =>
      exact ⟨(consumeLoop frags "").events, Event.done tasks, rfl,
        fun e he => consumeLoop_events_not_terminal frags "" e he, rfl⟩
    | error m =>
      exact ⟨(consumeLoop frags "").events, Event.error m, rfl,
        fun e he => consumeLoop_events_not_terminal frags "" e he, rfl⟩

theorem c2_witness :
    ∃ ds t,
      planEvents (planHandler ⟨some (Json.str "Launch a blog"),
        some (Json.str "today")⟩ (StreamOutcome.completed ["x"]) sampleParse 0
        (fun _ => 0) (fun _ => 0)) = ds ++ [t]
      ∧ (∀ e ∈ ds, isTerminal e = false) ∧ isTerminal t = true :=
  c2_terminal_event ⟨some (Json.str "Launch a blog"), some (Json.str "today")⟩
    (StreamOutcome.completed ["x"]) sampleParse 0 (fun _ => 0) (fun _ => 0)
    (Json.str "Launch a blog") (Json.str "today") rfl rfl (by decide) (by decide)

/-! ### Idempotence of the cleaning step (C6) -/

theorem or_false_left {a b : Bool} (h : (a || b) = false) : a = false := by
  cases a <;> cases b <;> simp_all

theorem or_false_right {a b : Bool} (h : (a || b) = false) : b = false := by
  cases a <;> cases b <;> simp_all

theorem startsTriple_ne1 (c : Char) (l : List Char) (hc : c ≠ btick) :
    startsTriple (c :: l) = false := by
  cases l with
  | nil => rfl
  | cons d t =>
    cases t with
    | nil => rfl
    | cons e t2 => simp [startsTriple, hc]

theorem startsTriple_ne2 (c d : Char) (l : List Char) (hd : d ≠ btick) :
    startsTriple (c :: d :: l) = false := by
  cases l with
  | nil => rfl
  | cons e t2 => simp [startsTriple, hd]

theorem startsTriple_ne3 (c d e : Char) (l : List Char) (he : e ≠ btick) :
    startsTriple (c :: d :: e :: l) = false := by
  simp [startsTriple, he]

theorem stripFences_cons (c : Char) (rest : List Char)
    (h : startsTriple (c :: rest) = false) :
    stripFences (c :: rest) = c :: stripFences rest := by
  cases rest with
  | nil => rfl
  | cons d t =>
    cases t with
    | nil => rfl
    | cons e t2 =>
      have hne : ¬(c = btick ∧ d = btick ∧ e = btick) := by
        rintro ⟨h1, h2, h3⟩
        rw [h1, h2, h3] at h
        simp [startsTriple] at h
      simp [stripFences, hne]

theorem stripFences_triple (rest : List Char) :
    stripFences (btick :: btick :: btick :: rest) = stripFences rest := by
  simp [stripFences]

theorem noTriple_stripFences :
    ∀ (n : Nat) (l : List Char), l.length ≤ n →
      hasTriple (stripFences l) = false := by
  intro n
  induction n with
  | zero =>
    intro l hl
    have : l = [] := List.eq_nil_of_length_eq_zero (Nat.le_zero.mp hl)
    subst this
    rfl
  | succ n ih =>
    intro l hl
    rcases l with _ | ⟨c, rest⟩
    · rfl
    by_cases hc : c = btick
    · subst hc
      rcases rest with _ | ⟨d, rest2⟩
      · rfl
      by_cases hd : d = btick
      · subst hd
        rcases rest2 with _ | ⟨e, rest3⟩
        · rfl
        by_cases he : e = btick
        · subst he
          rw [stripFences_triple rest3]
          exact ih rest3 (by simp [List.length_cons] at hl; omega)
        · have hr3 : rest3.length ≤ n := by simp [List.length_cons] at hl; omega
          rw [stripFences_cons _ _ (startsTriple_ne3 _ _ _ _ he),
            stripFences_cons _ _ (startsTriple_ne2 _ _ _ he),
            stripFences_cons _ _ (startsTriple_ne1 _ _ he)]
          show (startsTriple (btick :: btick :: e :: stripFences rest3) ||
            (startsTriple (btick :: e :: stripFences rest3) ||
              (startsTriple (e :: stripFences rest3) ||
                hasTriple (stripFences rest3)))) = false
          rw [startsTriple_ne3 _ _ _ _ he, startsTriple_ne2 _ _ _ he,
            startsTriple_ne1 _ _ he, ih rest3 hr3]
          rfl
      · have hr2 : rest2.length ≤ n := by simp [List.length_cons] at hl; omega
        rw [stripFences_cons _ _ (startsTriple_ne2 _ _ _ hd),
          stripFences_cons _ _ (startsTriple_ne1 _ _ hd)]
        show (startsTriple (btick :: d :: stripFences rest2) ||
          (startsTriple (d :: stripFences rest2) ||
            hasTriple (stripFences rest2))) = false
        rw [startsTriple_ne2 _ _ _ hd, startsTriple_ne1 _ _ hd, ih rest2 hr2]
        rfl
    · have hrest : rest.length ≤ n := by simp [List.length_cons] at hl; omega
      rw [stripFences_cons _ _ (startsTriple_ne1 _ _ hc)]
      show (startsTriple (c :: stripFences rest) || hasTriple (stripFences rest))
        = false
      rw [startsTriple_ne1 _ _ hc, ih rest hrest]
      rfl

theorem startsTriple_append (l t : List Char) (h : startsTriple l = true) :
    startsTriple (l ++ t) = true := by
  match l with
  | [] => simp [startsTriple] at h
  | [c] => simp [startsTriple] at h
  | [c, d] => simp [startsTriple] at h
  | c :: d :: e :: r =>
    simp only [startsTriple] at h ⊢
    simpa using h

theorem hasTriple_prefix (p t : List Char) (h : hasTriple (p ++ t) = false) :
    hasTriple p = false := by
  induction p with
  | nil => rfl
  | cons c p2 ih =>
    have hcons : (startsTriple (c :: (p2 ++ t)) || hasTriple (p2 ++ t)) = false := h
    have h2 : hasTriple p2 = false := ih (or_false_right hcons)
    show (startsTriple (c :: p2) || hasTriple p2) = false
    rw [h2]
    cases hst : startsTriple (c :: p2) with
    | false => rfl
    | true =>
      have h3 := startsTriple_append (c :: p2) t hst
      rw [List.cons_append] at h3
      rw [or_false_left hcons] at h3
      simp at h3

theorem hasTriple_suffix (s l : List Char) (h : hasTriple (s ++ l) = false) :
    hasTriple l = false := by
  induction s with
  | nil => exact h
  | cons c s2 ih =>
    have hcons : (startsTriple (c :: (s2 ++ l)) || hasTriple (s2 ++ l)) = false := h
    exact ih (or_false_right hcons)

theorem hasTriple_trimLeft (l : List Char) (h : hasTriple l = false) :
    hasTriple (trimLeft l) = false := by
  induction l with
  | nil => rfl
  | cons c rest ih =>
    have hcons : (startsTriple (c :: rest) || hasTriple rest) = false := h
    simp only [trimLeft]
    by_cases hw : isWS c = true
    · rw [if_pos hw]
      exact ih (or_false_right hcons)
    · rw [if_neg hw]
      exact h

theorem trimRight_prefix (l : List Char) : ∃ t, trimRight l ++ t = l := by
  induction l with
  | nil => exact ⟨[], rfl⟩
  | cons c rest ih =>
    cases hr : trimRight rest with
    | nil =>
      by_cases hw : isWS c = true
      · refine ⟨c :: rest, ?_⟩
        simp only [trimRight]
        rw [hr]
        simp [hw]
      · obtain ⟨t, ht⟩ := ih
        rw [hr] at ht
        refine ⟨t, ?_⟩
        simp only [trimRight]
        rw [hr]
        simp only [if_neg hw]
        simpa using ht
    | cons r0 rs =>
      obtain ⟨t, ht⟩ := ih
      rw [hr] at ht
      refine ⟨t, ?_⟩
      simp only [trimRight]
      rw [hr]
      simpa using ht

theorem hasTriple_trimRight (l : List Char) (h : hasTriple l = false) :
    hasTriple (trimRight l) = false := by
  obtain ⟨t, ht⟩ := trimRight_prefix l
  exact hasTriple_prefix _ t (by rw [ht]; exact h)

theorem hasTriple_trim (l : List Char) (h : hasTriple l = false) :
    hasTriple (trim l) = false :=
  hasTriple_trimRight _ (hasTriple_trimLeft _ h)

theorem stripFences_noop (l : List Char) (h : hasTriple l = false) :
    stripFences l = l := by
  induction l with
  | nil => rfl
  | cons c rest ih =>
    have hcons : (startsTriple (c :: rest) || hasTriple rest) = false := h
    rw [stripFences_cons c rest (or_false_left hcons),
      ih (or_false_right hcons)]

theorem jsonFenceHead_startsTriple (l : List Char) (h : jsonFenceHead l = true) :
    startsTriple l = true := by
  match l with
  | [] => simp [jsonFenceHead] at h
  | [a] => simp [jsonFenceHead] at h
  | [a, b] => simp [jsonFenceHead] at h
  | [a, b, c] => simp [jsonFenceHead] at h
  | [a, b, c, d] => simp [jsonFenceHead] at h
  | [a, b, c, d, e] => simp [jsonFenceHead] at h
  | [a, b, c, d, e, f] => simp [jsonFenceHead] at h
  | a :: b :: c :: d :: e :: f :: g :: t =>
    simp only [jsonFenceHead, Bool.and_eq_true, decide_eq_true_eq] at h
    have ha := h.1.1.1.1.1.1
    have hb := h.1.1.1.1.1.2
    have hc := h.1.1.1.1.2
    simp [startsTriple, ha, hb, hc]

theorem stripJsonFence_noop (l : List Char) (h : hasTriple l = false) :
    stripJsonFence l = l := by
  induction l with
  | nil => rfl
  | cons c rest ih =>
    have hcons : (startsTriple (c :: rest) || hasTriple rest) = false := h
    have hjf : jsonFenceHead (c :: rest) = false := by
      cases hj : jsonFenceHead (c :: rest) with
      | false => rfl
      | true =>
        have h3 := jsonFenceHead_startsTriple _ hj
        rw [or_false_left hcons] at h3
        exact h3.symm
    simp only [stripJsonFence]
    rw [hjf]
    simp [ih (or_false_right hcons)]

theorem trimLeft_idem (l : List Char) : trimLeft (trimLeft l) = trimLeft l := by
  induction l with
  | nil => rfl
  | cons c rest ih =>
    simp only [trimLeft]
    by_cases hw : isWS c = true
    · rw [if_pos hw]
      exact ih
    · rw [if_neg hw]
      simp only [trimLeft]
      rw [if_neg hw]

theorem trimLeft_length (l : List Char) : (trimLeft l).length ≤ l.length := by
  induction l with
  | nil => exact le_rfl
  | cons c rest ih =>
    simp only [trimLeft]
    by_cases hw : isWS c = true
    · rw [if_pos hw]
      exact le_trans ih (by simp)
    · rw [if_neg hw]

theorem trimLeft_trimRight (l : List Char) (h : trimLeft l = l) :
    trimLeft (trimRight l) = trimRight l := by
  cases l with
  | nil => rfl
  | cons c rest =>
    have hw : isWS c = false := by
      by_cases hw : isWS c = true
      · exfalso
        have heq : trimLeft (c :: rest) = trimLeft rest := by
          simp [trimLeft, hw]
        rw [heq] at h
        have hlen := trimLeft_length rest
        rw [h] at hlen
        simp at hlen
      · simpa using hw
    cases hr : trimRight (c :: rest) with
    | nil => rfl
    | cons r0 rs =>
      have hr0 : r0 = c := by
        simp only [trimRight] at hr
        cases hr2 : trimRight rest with
        | nil =>
          rw [hr2] at hr
          rw [if_neg (by simp [hw])] at hr
          simp at hr
          exact hr.1.symm
        | cons x xs =>
          rw [hr2] at hr
          simp at hr
          exact hr.1.symm
      subst hr0
      simp [trimLeft, hw]

theorem trimRight_cons_nonnil (c : Char) (rest : List Char) (r0 : Char)
    (rs : List Char) (h : trimRight rest = r0 :: rs) :
    trimRight (c :: rest) = c :: r0 :: rs := by
  simp only [trimRight]
  rw [h]

theorem trimRight_idem (l : List Char) : trimRight (trimRight l) = trimRight l := by
  induction l with
  | nil => rfl
  | cons c rest ih =>
    cases hr : trimRight rest with
    | nil =>
      simp only [trimRight]
      rw [hr]
      by_cases hw : isWS c = true
      · simp [hw, trimRight]
      · simp [hw, trimRight]
    | cons r0 rs =>
      rw [trimRight_cons_nonnil c rest r0 rs hr]
      rw [hr] at ih
      exact trimRight_cons_nonnil c (r0 :: rs) r0 rs ih

theorem trim_idem (l : List Char) : trim (trim l) = trim l := by
  unfold trim
  rw [trimLeft_trimRight (trimLeft l) (trimLeft_idem l), trimRight_idem]

theorem hasTriple_clean (l : List Char) : hasTriple (clean l) = false := by
  unfold clean
  exact hasTriple_trim _
    (noTriple_stripFences (stripJsonFence l).length _ le_rfl)

theorem clean_idem (l : List Char) : clean (clean l) = clean l := by
  have hk := hasTriple_clean l
  show trim (stripFences (stripJsonFence (clean l))) = clean l
  rw [stripJsonFence_noop _ hk, stripFences_noop _ hk]
  show trim (trim (stripFences (stripJsonFence l))) = clean l
  rw [trim_idem]
  rfl

/-- C6: the cleaning step of the Response Normalizer (strip the first
```json marker, strip all remaining ``` markers, trim) is idempotent:
cleaning already-cleaned output changes nothing, so re-running the
normalizer on its own cleaned output parses the same structure. -/
theorem c6_clean_idempotent (s : String) : cleanStr (cleanStr s) = cleanStr s := by
  show String.mk (clean (String.mk (clean s.data)).data) = String.mk (clean s.data)
  rw [show (String.mk (clean s.data)).data = clean s.data from rfl, clean_idem]

/-! ### The status store (C9) -/

theorem status_store_inv (parse : String → Option Json) (today : Nat)
    (prC emC : Nat → Nat) :
    ∀ s, Reach parse today prC emC s →
      ∀ id, s.bgPending id = true → s.store id = some PlanStatus.pending := by
  intro s hs
  induction hs with
  | init => intro id h; simp [initState] at h
  | step s1 s2 hs hstep ih =>
    cases hstep with
    | start idn fresh =>
      intro x hx
      simp only [startState] at hx ⊢
      by_cases hxi : x = idn
      · simp [hxi]
      · rw [if_neg hxi] at hx ⊢
        exact ih x hx
    | finish idn hbg hd mr =>
      intro x hx
      simp only [finishState] at hx ⊢
      by_cases hxi : x = idn
      · rw [if_pos hxi] at hx
        exact absurd hx (by simp)
      · rw [if_neg hxi] at hx ⊢
        exact ih x hx

/-- C9: an entry is created synchronously in pending state by /plan/start;
the background task writes a final status exactly once (always completed
with a plan or error with a message, never pending); in every reachable
execution a final status is never changed by any later transition; and a
status lookup for an id not in the store answers 404 "Invalid planId". -/
theorem c9_status_store (parse : String → Option Json) (today : Nat)
    (prC emC : Nat → Nat) :
    (∀ s id, s.store id = none →
      (startState s id).store id = some PlanStatus.pending)
    ∧ (∀ hd mr,
        (∃ ts, bgStatusOf parse hd today prC emC mr = PlanStatus.completed ts)
        ∨ (∃ m, bgStatusOf parse hd today prC emC mr = PlanStatus.error m))
    ∧ (∀ s id hd mr, s.bgPending id = true →
        (finishState parse today prC emC s id hd mr).store id =
          some (bgStatusOf parse hd today prC emC mr))
    ∧ (∀ s s', Reach parse today prC emC s → Step parse today prC emC s s' →
        ∀ id v, s.store id = some v → v ≠ PlanStatus.pending →
          s'.store id = some v)
    ∧ (∀ store id, store id = none →
        statusHandler store id = StatusResponse.notFound "Invalid planId") := by
  refine ⟨?_, ?_, ?_, ?_, ?_⟩
  · intro s id h
    simp [startState]
  · intro hd mr
    cases mr with
    | error m => exact Or.inr ⟨m, rfl⟩
    | ok text =>
      cases hb : bgNormalize parse hd today prC emC text with
      | ok ts =>
        refine Or.inl ⟨ts, ?_⟩
        simp [bgStatusOf, hb]
      | error m =>
        refine Or.inr ⟨m, ?_⟩
        simp [bgStatusOf, hb]
  · intro s id hd mr hbg
    simp [finishState]
  · intro s s' hreach hstep id v hv hvp
    cases hstep with
    | start idn fresh =>
      simp only [startState]
      by_cases hxi : id = idn
      · subst hxi
        rw [hv] at fresh
        exact Option.noConfusion fresh
      · rw [if_neg hxi]
        exact hv
    | finish idn hbg hd mr =>
      simp only [finishState]
      by_cases hxi : id = idn
      · subst hxi
        have hpend := status_store_inv parse today prC emC s hreach id hbg
        rw [hv] at hpend
        have : v = PlanStatus.pending := Option.some.inj hpend
        exact absurd this hvp
      · rw [if_neg hxi]
        exact hv
  · intro st id h
    simp [statusHandler, h]

theorem c9_witness :
    (startState initState "a").store "a" = some PlanStatus.pending
    ∧ ((∃ ts, bgStatusOf (fun _ => none) 7 0 (fun _ => 0) (fun _ => 0)
          (Except.error "boom") = PlanStatus.completed ts)
       ∨ (∃ m, bgStatusOf (fun _ => none) 7 0 (fun _ => 0) (fun _ => 0)
          (Except.error "boom") = PlanStatus.error m))
    ∧ (finishState (fun _ => none) 0 (fun _ => 0) (fun _ => 0)
        (startState initState "a") "a" 7 (Except.error "boom")).store "a"
        = some (bgStatusOf (fun _ => none) 7 0 (fun _ => 0) (fun _ => 0)
            (Except.error "boom"))
    ∧ (startState (finishState (fun _ => none) 0 (fun _ => 0) (fun _ => 0)
        (startState initState "a") "a" 7 (Except.error "boom")) "b").store "a"
        = some (PlanStatus.error "boom")
    ∧ statusHandler (fun _ => none) "missing" =
        StatusResponse.notFound "Invalid planId" := by
  obtain ⟨h1, h2, h3, h4, h5⟩ :=
    c9_status_store (fun _ => none) 0 (fun _ => 0) (fun _ => 0)
  refine ⟨h1 initState "a" rfl, h2 7 (Except.error "boom"),
    h3 (startState initState "a") "a" 7 (Except.error "boom") rfl, ?_,
    h5 (fun _ => none) "missing" rfl⟩
  exact h4
    (finishState (fun _ => none) 0 (fun _ => 0) (fun _ => 0)
      (startState initState "a") "a" 7 (Except.error "boom"))
    (startState (finishState (fun _ => none) 0 (fun _ => 0) (fun _ => 0)
      (startState initState "a") "a" 7 (Except.error "boom")) "b")
    (Reach.step _ _ (Reach.step _ _ Reach.init
      (Step.start initState "a" rfl))
      (Step.finish (startState initState "a") "a" rfl 7 (Except.error "boom")))
    (Step.start _ "b" rfl)
    "a" (PlanStatus.error "boom") rfl
    (by intro hcon; exact PlanStatus.noConfusion hcon)

end PlanBuddy
